import Mathlib

/-!
# Verification of the agent-generator repository

This file gives a shallow embedding of the parts of the agent-generator
repository needed to settle the frozen claims: the frontend HTTP client
(`src/frontend/src/lib/api.ts`), the agent-color hash functions
(`src/frontend/src/components/AgentCard.tsx`), the flow-creation page
(`src/frontend/pages/flow.tsx`), and the hierarchical multi-crew flow
orchestrator.  The orchestrator's Python source is not part of the
repository snapshot (only its architecture document
`src/docs/flow_architecture.md` and its HTTP callers are), so the
orchestrator definitions are modelled from the specification, as marked
in their doc comments.
-/

namespace Frontend

/-! ## HTTP client embedding (src/frontend/src/lib/api.ts) -/

/-- HTTP request method. -/
inductive HttpMethod where
  | get
  | post
deriving DecidableEq, Repr

/-- An HTTP request as assembled by the axios client: the method, the full
request URL, the structured query parameters carried in that URL, and the
optional JSON request body (the axios `data` argument). -/
structure HttpRequest where
  method : HttpMethod
  url : String
  queryParams : List (String × String)
  jsonBody : Option String
deriving DecidableEq, Repr

/-- Model of the external web API `URLSearchParams.toString()`: the
parameters joined as key=value pairs separated by ampersands (percent
encoding of reserved characters is immaterial to the claims and elided). -/
def searchParamsToString (ps : List (String × String)) : String :=
  String.intercalate "&" (ps.map fun kv => kv.1 ++ "=" ++ kv.2)

/-- Shallow embedding of `postCreateCrewFlow` from
`src/frontend/src/lib/api.ts` (lines 11–18).  The payload object is
modelled as the association list of its own enumerable keys in iteration
order.  The source builds a `URLSearchParams`, appends `data[key]` for
every `key in data`, and issues `api.post` on the URL
`/flow/create?` + `params.toString()` with no `data` argument, hence no
JSON body. -/
def postCreateCrewFlow (data : List (String × String)) : HttpRequest :=
  let params := data
  { method := HttpMethod.post
    url := "/flow/create?" ++ searchParamsToString params
    queryParams := params
    jsonBody := none }

/-! ## Agent-color hash embedding (src/frontend/src/components/AgentCard.tsx) -/

/-- JavaScript `ToInt32`: wrap an integer into the signed 32-bit range. -/
def toInt32 (n : Int) : Int := (n + 2 ^ 31) % 2 ^ 32 - 2 ^ 31

/-- JavaScript `hash << 5`: coerce to Int32, shift left by 5, wrap. -/
def jsShl5 (n : Int) : Int := toInt32 (toInt32 n * 32)

/-- The character loop of `generateColor` (AgentCard.tsx lines 18–25):
`hash = str.charCodeAt(i) + ((hash << 5) - hash)` folded over the UTF-16
code units of the string. -/
def generateColorHash : List Nat → Int → Int
  | [], h => h
  | c :: rest, h => generateColorHash rest ((c : Int) + (jsShl5 h - h))

/-- Shallow embedding of `generateColor` from AgentCard.tsx (lines 18–25):
hash the agent name, take the JavaScript remainder by 360 as the hue, and
produce the `hsl(hue, 70%, 45%)` color string. -/
def generateColor (codeUnits : List Nat) : String :=
  let hue := Int.tmod (generateColorHash codeUnits 0) 360
  "hsl(" ++ toString hue ++ ", 70%, 45%)"

/-- The character loop of `generateAgentColor`, the duplicated hash in the
styled task table of the same file (AgentCard.tsx lines 213–220). -/
def generateAgentColorHash : List Nat → Int → Int
  | [], h => h
  | c :: rest, h => generateAgentColorHash rest ((c : Int) + (jsShl5 h - h))

/-- Shallow embedding of `generateAgentColor` from AgentCard.tsx
(lines 213–220), used for the agent chip in the task table. -/
def generateAgentColor (codeUnits : List Nat) : String :=
  let hue := Int.tmod (generateAgentColorHash codeUnits 0) 360
  "hsl(" ++ toString hue ++ ", 70%, 45%)"

/-! ## Flow-creation page embedding (src/frontend/pages/flow.tsx) -/

/-- Model of the ECMAScript white-space set used by `String.prototype.trim`
(restricted to the common members; the claims only need that the set is
exactly the one this predicate tests). -/
def isJsWhitespace (c : Char) : Bool :=
  c = ' ' || c = '\t' || c = '\n' || c = '\r' || c = '\x0b' || c = '\x0c' || c = '\u00A0'

/-- Model of the external `String.prototype.trim`: drop white-space
characters from both ends of the string. -/
def jsTrim (s : String) : String :=
  String.mk (((s.data.dropWhile isJsWhitespace).reverse.dropWhile isJsWhitespace).reverse)

/-- The outcome of one invocation of the page's submit handler: either the
handler rejects with an error message before any network call, or it
attempts an API request with the assembled payload. -/
inductive SubmitAction where
  | rejected (errorMessage : String)
  | apiRequest (task : String) (modelName : String) (temperature : ℚ) (debug : Bool)
deriving DecidableEq

/-- Shallow embedding of `handleSubmit` from `src/frontend/pages/flow.tsx`
(lines 147–192): if `task.trim()` is falsy (empty), set the error message
`Please provide a task description` and return before any network call;
otherwise build the payload `\x7b task, model_name, temperature \x7d` and call
the flow API (the debug checkbox selects the debug endpoint). -/
def handleSubmit (task modelName : String) (temperature : ℚ) (debugMode : Bool) :
    SubmitAction :=
  if jsTrim task = "" then SubmitAction.rejected "Please provide a task description"
  else SubmitAction.apiRequest task modelName temperature debugMode

/-- Shallow embedding of the submit button's `disabled` expression from
`src/frontend/pages/flow.tsx` (line 288): `loading || !task.trim()`. -/
def submitDisabled (loading : Bool) (task : String) : Bool :=
  loading || decide (jsTrim task = "")

/-! ## Frontend theorems -/

/-- The two duplicated hash loops compute the same value. -/
theorem colorHash_agree (l : List Nat) :
    ∀ h : Int, generateColorHash l h = generateAgentColorHash l h := by
  induction l with
  | nil => intro h; rfl
  | cons c rest ih =>
    intro h
    simpa [generateColorHash, generateAgentColorHash] using ih ((c : Int) + (jsShl5 h - h))

/-- C9: for every string, `generateColor` in AgentCard.tsx and
`generateAgentColor` in the styled task table of the same file return the
same string, of the shape hsl(hue, 70%, 45%) with identical hue, so an
agent's card header color always equals its chip color in the task table
for the same agent name. -/
theorem generateColor_eq_generateAgentColor :
    ∀ s : List Nat,
      generateColor s = generateAgentColor s ∧
      ∃ hue : Int, generateColor s = "hsl(" ++ toString hue ++ ", 70%, 45%)" := by
  intro s
  constructor
  · unfold generateColor generateAgentColor
    rw [colorHash_agree]
  · exact ⟨Int.tmod (generateColorHash s 0) 360, rfl⟩

/-- C8: for every payload, `postCreateCrewFlow` issues a POST whose URL is
/flow/create followed by the serialized query string, whose query carries
one key=value pair for every own key of the payload, and which attaches no
JSON request body. -/
theorem postCreateCrewFlow_request_shape :
    ∀ data : List (String × String),
      (postCreateCrewFlow data).method = HttpMethod.post ∧
      (postCreateCrewFlow data).url = "/flow/create?" ++ searchParamsToString data ∧
      (postCreateCrewFlow data).queryParams = data ∧
      (∀ kv ∈ data, kv ∈ (postCreateCrewFlow data).queryParams) ∧
      (postCreateCrewFlow data).jsonBody = none := by
  intro data
  exact ⟨rfl, rfl, rfl, fun kv hkv => hkv, rfl⟩

/-- Witness for C8 at the concrete payload the flow page sends. -/
theorem postCreateCrewFlow_request_shape_witness :
    ("task", "Build a summarizer") ∈
      (postCreateCrewFlow [("task", "Build a summarizer"),
        ("model_name", "gpt-4o"), ("temperature", "0.7")]).queryParams ∧
    (postCreateCrewFlow [("task", "Build a summarizer"),
        ("model_name", "gpt-4o"), ("temperature", "0.7")]).jsonBody = none := by
  have h := postCreateCrewFlow_request_shape
    [("task", "Build a summarizer"), ("model_name", "gpt-4o"), ("temperature", "0.7")]
  exact ⟨h.2.2.2.1 ("task", "Build a summarizer") (by simp), h.2.2.2.2⟩

/-- A string trims to empty exactly when all of its characters are
white space. -/
theorem jsTrim_empty_iff (s : String) :
    jsTrim s = "" ↔ ∀ c ∈ s.data, isJsWhitespace c = true := by
  unfold jsTrim
  rw [show ("" : String) = String.mk [] from rfl]
  constructor
  · intro h c hc
    have hdata :
        ((s.data.dropWhile isJsWhitespace).reverse.dropWhile isJsWhitespace).reverse
          = [] := congrArg String.data h
    rw [List.reverse_eq_nil_iff, List.dropWhile_eq_nil_iff] at hdata
    rw [← List.takeWhile_append_dropWhile isJsWhitespace s.data] at hc
    rcases List.mem_append.mp hc with htk | hdr
    · exact List.mem_takeWhile_imp htk
    · exact hdata c (List.mem_reverse.mpr hdr)
  · intro hall
    have h1 : s.data.dropWhile isJsWhitespace = [] :=
      List.dropWhile_eq_nil_iff.mpr hall
    rw [h1]
    rfl

/-- C10: the flow page's submit handler issues no API request for an empty
or whitespace-only task — it rejects with the message
Please provide a task description before any network call — the submit
button is disabled whenever the trimmed task is empty, and an API request
is attempted only when the task has at least one non-whitespace
character. -/
theorem handleSubmit_requires_nonempty_task :
    ∀ (task modelName : String) (temp : ℚ) (dbg loading : Bool),
      ((∀ c ∈ task.data, isJsWhitespace c = true) →
        handleSubmit task modelName temp dbg =
          SubmitAction.rejected "Please provide a task description" ∧
        submitDisabled loading task = true) ∧
      (handleSubmit task modelName temp dbg =
          SubmitAction.apiRequest task modelName temp dbg →
        ∃ c ∈ task.data, isJsWhitespace c = false) := by
  intro task modelName temp dbg loading
  constructor
  · intro hws
    have he : jsTrim task = "" := (jsTrim_empty_iff task).mpr hws
    constructor
    · unfold handleSubmit
      rw [if_pos he]
    · unfold submitDisabled
      simp [he]
  · intro happ
    have hne : jsTrim task ≠ "" := by
      intro he
      unfold handleSubmit at happ
      rw [if_pos he] at happ
      exact SubmitAction.noConfusion happ
    have hx : ¬ ∀ c ∈ task.data, isJsWhitespace c = true :=
      fun hall => hne ((jsTrim_empty_iff task).mpr hall)
    push_neg at hx
    simpa using hx

/-- Witness for C10: a whitespace-only task is rejected with the exact
error message and leaves the button disabled; a task with visible
characters has a non-whitespace character to submit. -/
theorem handleSubmit_requires_nonempty_task_witness :
    handleSubmit "   " "gpt-4o" (7 / 10) false =
      SubmitAction.rejected "Please provide a task description" ∧
    submitDisabled false "   " = true ∧
    ∃ c ∈ ("summarize documents" : String).data, isJsWhitespace c = false := by
  have h1 := (handleSubmit_requires_nonempty_task "   " "gpt-4o" (7 / 10) false false).1
    (by decide)
  have h2 := (handleSubmit_requires_nonempty_task "summarize documents" "gpt-4o"
    (7 / 10) false false).2 rfl
  exact ⟨h1.1, h1.2, h2⟩

end Frontend

namespace MultiCrewFlow

/-! ## Data model of the hierarchical multi-crew flow

The flow orchestrator's Python source is not included in the repository
snapshot; `src/docs/flow_architecture.md` documents it and the frontend
calls it over HTTP.  Every definition in this namespace is therefore
modelled from the specification, as its doc comment records. -/

/-- Modelled from the spec: generation configuration (§3 `config`: model
name, temperature, opaque to the orchestrator). -/
structure Config where
  modelName : String
  temperature : ℚ
deriving DecidableEq

/-- Modelled from the spec: process type enum (§3). -/
inductive ProcessType where
  | sequential
  | hierarchical
deriving DecidableEq

/-- Modelled from the spec: the four reasoning phases (§2, glossary). -/
inductive PhaseTag where
  | analysis
  | planning
  | implementation
  | evaluation
deriving DecidableEq

/-- Modelled from the spec: planning algorithm enum (§3). -/
inductive Algorithm where
  | bestOfN
  | treeOfThoughts
  | rebase
deriving DecidableEq

/-- Modelled from the spec: AnalysisResult (§3). -/
structure AnalysisResult where
  constraints : List String
  complexity : Nat
  domainKnowledge : List String
  recommendedProcessType : ProcessType
deriving DecidableEq

/-- Modelled from the spec: PlanningResult (§3). -/
structure PlanningResult where
  selectedAlgorithm : Algorithm
  candidatePlans : List String
  verificationScore : ℚ
deriving DecidableEq

/-- Modelled from the spec: one agent spec inside an ImplementationResult
(§3: name, role, goal, backstory, capability set). -/
structure AgentSpec where
  name : String
  role : String
  goal : String
  backstory : String
  capabilities : List String
deriving DecidableEq

/-- Modelled from the spec: one task spec inside an ImplementationResult
(§3: name, description, expected output, assigned agent, dependency set
referencing other task names). -/
structure TaskSpec where
  name : String
  description : String
  expectedOutput : String
  agent : String
  deps : List String
deriving DecidableEq

/-- Modelled from the spec: workflow (§3: process type + task ordering). -/
structure Workflow where
  processType : ProcessType
  taskOrder : List String
deriving DecidableEq

/-- Modelled from the spec: ImplementationResult (§3). -/
structure ImplementationResult where
  agents : List AgentSpec
  tasks : List TaskSpec
  workflow : Workflow
  tools : List String
deriving DecidableEq

/-- Modelled from the spec: a weakness or recommendation string tagged with
its target phase (§3 EvaluationResult). -/
structure Tagged where
  text : String
  target : PhaseTag
deriving DecidableEq

/-- Modelled from the spec: EvaluationResult (§3). -/
structure EvaluationResult where
  strengths : List String
  weaknesses : List Tagged
  recommendations : List Tagged
  score : ℚ
deriving DecidableEq

/-- Modelled from the spec: CrewPlan, the published output (§3). -/
structure CrewPlan where
  agents : List AgentSpec
  tasks : List TaskSpec
  processType : ProcessType
deriving DecidableEq

/-- Modelled from the spec: HistoryEntry (§3): the phase, the attempt
number, whether the executor call succeeded (an output snapshot) or failed
(an error snapshot), and whether this is one of the entries tagged
"refinement" appended by the Refinement Controller (§4.2 step 4). -/
structure HistoryEntry where
  phase : PhaseTag
  attempt : Nat
  success : Bool
  refinementTag : Bool
deriving DecidableEq

/-- Modelled from the spec: the per-phase iteration counters (§3
`iterationCounts`: mapping from phase name to integer, all start at 0). -/
structure IterationCounts where
  analysisCount : Nat
  planningCount : Nat
  implementationCount : Nat
  evaluationCount : Nat
deriving DecidableEq

/-- Look up one phase's counter. -/
def IterationCounts.get (c : IterationCounts) : PhaseTag → Nat
  | PhaseTag.analysis => c.analysisCount
  | PhaseTag.planning => c.planningCount
  | PhaseTag.implementation => c.implementationCount
  | PhaseTag.evaluation => c.evaluationCount

/-- Increment one phase's counter. -/
def IterationCounts.incr (c : IterationCounts) : PhaseTag → IterationCounts
  | PhaseTag.analysis => { c with analysisCount := c.analysisCount + 1 }
  | PhaseTag.planning => { c with planningCount := c.planningCount + 1 }
  | PhaseTag.implementation => { c with implementationCount := c.implementationCount + 1 }
  | PhaseTag.evaluation => { c with evaluationCount := c.evaluationCount + 1 }

/-- All counters at zero (§3: all start at 0). -/
def IterationCounts.zero : IterationCounts := ⟨0, 0, 0, 0⟩

/-- Modelled from the spec: the four injected phase executor adapters
(§4.3, §9): each takes its declared input plus an optional refinement
context (the latest EvaluationResult), and either produces a result or
fails (transiently or semantically) — `none` covers both failure classes,
which the orchestrator treats identically. -/
structure Executors where
  analysisExec : String → Config → Option AnalysisResult
  planningExec : String → AnalysisResult → Option EvaluationResult → Option PlanningResult
  implementationExec : String → PlanningResult → Option EvaluationResult →
    Option ImplementationResult
  evaluationExec : ImplementationResult → Option EvaluationResult

/-- Modelled from the spec: MultiCrewState (§3) extended with the run-local
bookkeeping the spec names: the total number of phase re-entries (§4.1
global cap), the completed iterations (implementation with its evaluation
score, most recent first) from which `bestImplementationSoFar` is selected
(§4.2 step 3), and the trace of every value taken by `iterationCounts`
after an increment (reachable-state snapshots). -/
structure FlowState where
  taskDescription : String
  config : Config
  analysis : Option AnalysisResult
  planning : Option PlanningResult
  implementation : Option ImplementationResult
  evaluation : Option EvaluationResult
  iterationCounts : IterationCounts
  history : List HistoryEntry
  finalPlan : Option CrewPlan
  totalReentries : Nat
  iterations : List (ImplementationResult × ℚ)
  countsTrace : List IterationCounts

/-- Modelled from the spec: Analysis fallback result (§7: complexity=5,
recommendedProcessType=sequential, empty constraint/knowledge sets). -/
def analysisFallback : AnalysisResult :=
  { constraints := [], complexity := 5, domainKnowledge := [],
    recommendedProcessType := ProcessType.sequential }

/-- Modelled from the spec: Planning fallback result (§7: a minimal,
schema-valid placeholder). -/
def planningFallback : PlanningResult :=
  { selectedAlgorithm := Algorithm.bestOfN, candidatePlans := [], verificationScore := 0 }

/-- Modelled from the spec: Implementation fallback result (§7: a single
generic agent and a single task covering the whole task description). -/
def implementationFallback (task : String) : ImplementationResult :=
  { agents := [{ name := "generic_agent", role := "Generalist",
                 goal := "Complete the requested task", backstory := "",
                 capabilities := [] }],
    tasks := [{ name := "main_task", description := task,
                expectedOutput := "A completed result for the whole task",
                agent := "generic_agent", deps := [] }],
    workflow := { processType := ProcessType.sequential, taskOrder := ["main_task"] },
    tools := [] }

/-- Modelled from the spec: Evaluation fallback result (§7: a minimal,
schema-valid placeholder; its score of 0 keeps the refinement loop subject
to the iteration caps rather than terminating on quality). -/
def evaluationFallback : EvaluationResult :=
  { strengths := [], weaknesses := [], recommendations := [], score := 0 }

/-! ## Phase execution, refinement control, finalization -/

/-- The analysis result currently carried by the state, with the fallback
standing in when the phase has not produced one. -/
def FlowState.analysisNow (st : FlowState) : AnalysisResult :=
  st.analysis.getD analysisFallback

/-- The planning result currently carried by the state. -/
def FlowState.planningNow (st : FlowState) : PlanningResult :=
  st.planning.getD planningFallback

/-- The implementation result currently carried by the state. -/
def FlowState.implementationNow (st : FlowState) : ImplementationResult :=
  st.implementation.getD (implementationFallback st.taskDescription)

/-- The evaluation result currently carried by the state. -/
def FlowState.evaluationNow (st : FlowState) : EvaluationResult :=
  st.evaluation.getD evaluationFallback

/-- The non-refinement history entries of one phase, in order. -/
def attemptEntries (h : List HistoryEntry) (p : PhaseTag) : List HistoryEntry :=
  h.filter fun e => decide (e.phase = p) && !e.refinementTag

/-- Modelled from the spec: the attempt number recorded for the next
attempt of a phase (§3 HistoryEntry.attemptNumber): one more than the
number of attempts of that phase already in the history. -/
def attemptNumberFor (h : List HistoryEntry) (p : PhaseTag) : Nat :=
  (attemptEntries h p).length + 1

/-- Modelled from the spec: the History Recorder's append of one attempt
entry (§4.4: append-only; §4.1: on failure the attempt is recorded with an
error snapshot). -/
def recordAttempt (h : List HistoryEntry) (p : PhaseTag) (ok : Bool) :
    List HistoryEntry :=
  h ++ [{ phase := p, attempt := attemptNumberFor h p, success := ok,
          refinementTag := false }]

/-- Modelled from the spec: the HistoryEntry tagged "refinement" appended
when the Refinement Controller re-enters a phase (§4.2 step 4). -/
def refinementEntry (h : List HistoryEntry) (p : PhaseTag) : HistoryEntry :=
  { phase := p, attempt := attemptNumberFor h p, success := true,
    refinementTag := true }

/-- Modelled from the spec: run the Analysis phase (§4.1): one external
call, record the attempt, substitute the fallback on failure, continue. -/
def runAnalysisPhase (ex : Executors) (st : FlowState) : FlowState :=
  let out := ex.analysisExec st.taskDescription st.config
  { st with analysis := some (out.getD analysisFallback),
            history := recordAttempt st.history PhaseTag.analysis out.isSome }

/-- Modelled from the spec: run the Planning phase (§4.1, §4.2 step 4):
one external call with the original inputs plus the refinement context,
record the attempt, substitute the fallback on failure, continue. -/
def runPlanningPhase (ex : Executors) (st : FlowState)
    (ctx : Option EvaluationResult) : FlowState :=
  let out := ex.planningExec st.taskDescription st.analysisNow ctx
  { st with planning := some (out.getD planningFallback),
            history := recordAttempt st.history PhaseTag.planning out.isSome }

/-- Modelled from the spec: run the Implementation phase (§4.1, §4.2
step 4). -/
def runImplementationPhase (ex : Executors) (st : FlowState)
    (ctx : Option EvaluationResult) : FlowState :=
  let out := ex.implementationExec st.taskDescription st.planningNow ctx
  { st with implementation := some (out.getD (implementationFallback st.taskDescription)),
            history := recordAttempt st.history PhaseTag.implementation out.isSome }

/-- Modelled from the spec: run the Evaluation phase (§4.1) and record the
completed iteration (the implementation just evaluated together with its
`evaluation.score`, most recent first) for `bestImplementationSoFar`
(§4.2 step 3). -/
def runEvaluationPhase (ex : Executors) (st : FlowState) : FlowState :=
  let out := ex.evaluationExec st.implementationNow
  let ev := out.getD evaluationFallback
  { st with evaluation := some ev,
            iterations := (st.implementationNow, ev.score) :: st.iterations,
            history := recordAttempt st.history PhaseTag.evaluation out.isSome }

/-- The Refinement Controller's verdict after an Evaluation (§4.2). -/
inductive Decision where
  | finalizeNow
  | forcedFinalize
  | refine (target : PhaseTag)
deriving DecidableEq

/-- The number of recommendations tagged with a given target phase. -/
def countTagged (recs : List Tagged) (p : PhaseTag) : Nat :=
  (recs.filter fun r => decide (r.target = p)).length

/-- Modelled from the spec: the Refinement Controller's choice of target
phase (§4.2 step 2): the most frequently tagged target phase among
planning and implementation, preferring implementation on ties. -/
def choosePhase (ev : EvaluationResult) : PhaseTag :=
  if countTagged ev.recommendations PhaseTag.planning ≤
      countTagged ev.recommendations PhaseTag.implementation
  then PhaseTag.implementation else PhaseTag.planning

/-- Modelled from the spec: the Refinement Controller's decision rule
(§4.2): terminate at score ≥ 7.0; otherwise choose the target phase; if
its per-phase counter is ≥ 3 or the global re-entry cap of 6 (§4.1) is
reached, force finalization regardless of score; otherwise refine. -/
def refinementDecision (ev : EvaluationResult) (counts : IterationCounts)
    (totalReentries : Nat) : Decision :=
  if 7 ≤ ev.score then Decision.finalizeNow
  else
    let p := choosePhase ev
    if 3 ≤ counts.get p ∨ 6 ≤ totalReentries then Decision.forcedFinalize
    else Decision.refine p

/-- Modelled from the spec: `bestImplementationSoFar` selection (§4.2
step 3): among the completed iterations (most recent first), the one with
the highest evaluation score, preferring the most recent on ties. -/
def bestIteration : List (ImplementationResult × ℚ) →
    Option (ImplementationResult × ℚ)
  | [] => none
  | x :: xs =>
    match bestIteration xs with
    | none => some x
    | some y => if x.2 < y.2 then some y else some x

/-- Modelled from the spec: the Finalizer's reference check (§4.5): every
task's dependency set references only task names present in the task
list. -/
def depsResolve (tasks : List TaskSpec) : Bool :=
  tasks.all fun t => t.deps.all fun d => (tasks.map TaskSpec.name).contains d

/-- Modelled from the spec: the Finalizer's agent check (§4.5): every
task's assigned agent name exists among the agents. -/
def agentsResolve (agents : List AgentSpec) (tasks : List TaskSpec) : Bool :=
  tasks.all fun t => (agents.map AgentSpec.name).contains t.agent

/-- One task is schedulable once all of its dependencies are done. -/
def removable (done : List String) (t : TaskSpec) : Bool :=
  t.deps.all fun d => done.contains d

/-- Fuelled Kahn-style elimination: repeatedly schedule every task whose
dependencies are all done; the dependency graph is acyclic exactly when
everything gets scheduled. -/
def kahnElim : Nat → List TaskSpec → List String → Bool
  | 0, remaining, _ => remaining.isEmpty
  | n + 1, remaining, done =>
    if remaining.isEmpty then true
    else
      let ready := remaining.filter (removable done)
      if ready.isEmpty then false
      else kahnElim n (remaining.filter fun t => !removable done t)
        (done ++ ready.map TaskSpec.name)

/-- Modelled from the spec: the Finalizer's acyclicity check (§3, §4.5):
the dependency graph between tasks must be acyclic. -/
def acyclicTasks (tasks : List TaskSpec) : Bool :=
  kahnElim tasks.length tasks []

/-- Modelled from the spec: the Finalizer's full validation of an
ImplementationResult (§4.5). -/
def validImpl (impl : ImplementationResult) : Bool :=
  depsResolve impl.tasks && acyclicTasks impl.tasks &&
    agentsResolve impl.agents impl.tasks

/-- Modelled from the spec: the Finalizer's success path (§4.5): copy
agents, tasks and workflow process type into an immutable CrewPlan. -/
def toCrewPlan (impl : ImplementationResult) : CrewPlan :=
  { agents := impl.agents, tasks := impl.tasks,
    processType := impl.workflow.processType }

/-- The Finalizer's validation applied to a published CrewPlan. -/
def planValid (p : CrewPlan) : Bool :=
  depsResolve p.tasks && acyclicTasks p.tasks && agentsResolve p.agents p.tasks

/-- Modelled from the spec: `finalize(implementation) -> CrewPlan` (§4.5):
publish the candidate if it validates; otherwise reject it and fall back
to the best prior valid ImplementationResult; when no prior iteration is
valid, fall back to the locally constructed Implementation fallback (§7),
so a valid plan is always produced. -/
def finalizePlan (candidate : ImplementationResult)
    (iters : List (ImplementationResult × ℚ)) (task : String) : CrewPlan :=
  if validImpl candidate then toCrewPlan candidate
  else
    match bestIteration (iters.filter fun ir => validImpl ir.1) with
    | some best => toCrewPlan best.1
    | none => toCrewPlan (implementationFallback task)

/-- Terminate the flow: set `finalPlan` (§3 invariant) to the Finalizer's
output for the given candidate implementation. -/
def finishWith (st : FlowState) (candidate : ImplementationResult) : FlowState :=
  { st with finalPlan := some (finalizePlan candidate st.iterations st.taskDescription) }

/-- The implementation finalized on forced termination (§4.2 step 3):
`bestImplementationSoFar`. -/
def bestCandidate (st : FlowState) : ImplementationResult :=
  match bestIteration st.iterations with
  | some best => best.1
  | none => st.implementationNow

/-- Modelled from the spec: one refinement re-entry (§4.2 step 4):
increment the chosen phase's counter, count the re-entry against the
global cap, snapshot the counters, append the history entry tagged
"refinement", then re-run the chosen phase and everything downstream of it
with the latest evaluation as refinement context. -/
def applyRefinement (ex : Executors) (st : FlowState) (target : PhaseTag) :
    FlowState :=
  let ctx := some st.evaluationNow
  let counts := st.iterationCounts.incr target
  let st := { st with iterationCounts := counts,
                      totalReentries := st.totalReentries + 1,
                      countsTrace := st.countsTrace ++ [counts],
                      history := st.history ++ [refinementEntry st.history target] }
  match target with
  | PhaseTag.planning =>
    runEvaluationPhase ex (runImplementationPhase ex (runPlanningPhase ex st ctx) ctx)
  | _ =>
    runEvaluationPhase ex (runImplementationPhase ex st ctx)

/-- Modelled from the spec: the Flow Orchestrator's refinement loop (§4.1,
§4.2): after each Evaluation, apply the Refinement Controller's decision;
the fuel argument is a structural recursion bound only — the controller's
caps terminate the loop before fuel 0 is ever reached from the initial
fuel of 7, and the fuel-0 branch coincides with forced finalization. -/
def loop (ex : Executors) : Nat → FlowState → FlowState
  | 0, st => finishWith st (bestCandidate st)
  | fuel + 1, st =>
    match refinementDecision st.evaluationNow st.iterationCounts st.totalReentries with
    | Decision.finalizeNow => finishWith st st.implementationNow
    | Decision.forcedFinalize => finishWith st (bestCandidate st)
    | Decision.refine target => loop ex fuel (applyRefinement ex st target)

/-- Modelled from the spec: the fresh MultiCrewState created once per
invocation (§3). -/
def initialState (task : String) (cfg : Config) : FlowState :=
  { taskDescription := task, config := cfg, analysis := none, planning := none,
    implementation := none, evaluation := none,
    iterationCounts := IterationCounts.zero, history := [], finalPlan := none,
    totalReentries := 0, iterations := [], countsTrace := [] }

/-- The state after the first pass through Analysis, Planning,
Implementation and Evaluation (§4.1: phases driven strictly in order). -/
def firstPassState (ex : Executors) (task : String) (cfg : Config) : FlowState :=
  runEvaluationPhase ex
    (runImplementationPhase ex
      (runPlanningPhase ex
        (runAnalysisPhase ex (initialState task cfg)) none) none)

/-- The first-pass ImplementationResult (after fallback substitution). -/
def firstImplementation (ex : Executors) (task : String) (cfg : Config) :
    ImplementationResult :=
  (firstPassState ex task cfg).implementationNow

/-- The first-pass EvaluationResult (after fallback substitution). -/
def firstEvaluation (ex : Executors) (task : String) (cfg : Config) :
    EvaluationResult :=
  (firstPassState ex task cfg).evaluationNow

/-- Modelled from the spec: `run(taskDescription, config)` (§4.1): drive
the four phases in order, then the refinement loop until termination. -/
def run (ex : Executors) (task : String) (cfg : Config) : FlowState :=
  loop ex 7 (firstPassState ex task cfg)

/-- The CrewPlan published by a run. -/
def runPlan (ex : Executors) (task : String) (cfg : Config) : Option CrewPlan :=
  (run ex task cfg).finalPlan

/-- Executors that fail on every attempt, for the total-outage scenario
(§7, §8). -/
def failingExecutors : Executors :=
  { analysisExec := fun _ _ => none, planningExec := fun _ _ _ => none,
    implementationExec := fun _ _ _ => none, evaluationExec := fun _ => none }

/-! ## Structural lemmas about the flow model -/

/-- The history grows only by appending: `new` is `old` followed by a
(possibly empty) tail. -/
def extendsHist (old new : List HistoryEntry) : Prop := ∃ tail, new = old ++ tail

theorem extendsHist_refl (h : List HistoryEntry) : extendsHist h h := ⟨[], by simp⟩

theorem extendsHist_trans {a b c : List HistoryEntry}
    (h1 : extendsHist a b) (h2 : extendsHist b c) : extendsHist a c := by
  obtain ⟨t1, rfl⟩ := h1
  obtain ⟨t2, rfl⟩ := h2
  exact ⟨t1 ++ t2, by simp⟩

theorem IterationCounts.get_incr (c : IterationCounts) (p q : PhaseTag) :
    (c.incr p).get q = if q = p then c.get q + 1 else c.get q := by
  cases p <;> cases q <;> simp [IterationCounts.incr, IterationCounts.get]

@[simp] theorem runAnalysisPhase_iterationCounts (ex : Executors) (st : FlowState) :
    (runAnalysisPhase ex st).iterationCounts = st.iterationCounts := rfl

@[simp] theorem runAnalysisPhase_totalReentries (ex : Executors) (st : FlowState) :
    (runAnalysisPhase ex st).totalReentries = st.totalReentries := rfl

@[simp] theorem runAnalysisPhase_countsTrace (ex : Executors) (st : FlowState) :
    (runAnalysisPhase ex st).countsTrace = st.countsTrace := rfl

@[simp] theorem runAnalysisPhase_taskDescription (ex : Executors) (st : FlowState) :
    (runAnalysisPhase ex st).taskDescription = st.taskDescription := rfl

@[simp] theorem runAnalysisPhase_finalPlan (ex : Executors) (st : FlowState) :
    (runAnalysisPhase ex st).finalPlan = st.finalPlan := rfl

@[simp] theorem runAnalysisPhase_history (ex : Executors) (st : FlowState) :
    (runAnalysisPhase ex st).history =
      recordAttempt st.history PhaseTag.analysis
        (ex.analysisExec st.taskDescription st.config).isSome := rfl

@[simp] theorem runPlanningPhase_iterationCounts (ex : Executors) (st : FlowState)
    (ctx : Option EvaluationResult) :
    (runPlanningPhase ex st ctx).iterationCounts = st.iterationCounts := rfl

@[simp] theorem runPlanningPhase_totalReentries (ex : Executors) (st : FlowState)
    (ctx : Option EvaluationResult) :
    (runPlanningPhase ex st ctx).totalReentries = st.totalReentries := rfl

@[simp] theorem runPlanningPhase_countsTrace (ex : Executors) (st : FlowState)
    (ctx : Option EvaluationResult) :
    (runPlanningPhase ex st ctx).countsTrace = st.countsTrace := rfl

@[simp] theorem runPlanningPhase_taskDescription (ex : Executors) (st : FlowState)
    (ctx : Option EvaluationResult) :
    (runPlanningPhase ex st ctx).taskDescription = st.taskDescription := rfl

@[simp] theorem runPlanningPhase_finalPlan (ex : Executors) (st : FlowState)
    (ctx : Option EvaluationResult) :
    (runPlanningPhase ex st ctx).finalPlan = st.finalPlan := rfl

@[simp] theorem runPlanningPhase_history (ex : Executors) (st : FlowState)
    (ctx : Option EvaluationResult) :
    (runPlanningPhase ex st ctx).history =
      recordAttempt st.history PhaseTag.planning
        (ex.planningExec st.taskDescription st.analysisNow ctx).isSome := rfl

@[simp] theorem runImplementationPhase_iterationCounts (ex : Executors) (st : FlowState)
    (ctx : Option EvaluationResult) :
    (runImplementationPhase ex st ctx).iterationCounts = st.iterationCounts := rfl

@[simp] theorem runImplementationPhase_totalReentries (ex : Executors) (st : FlowState)
    (ctx : Option EvaluationResult) :
    (runImplementationPhase ex st ctx).totalReentries = st.totalReentries := rfl

@[simp] theorem runImplementationPhase_countsTrace (ex : Executors) (st : FlowState)
    (ctx : Option EvaluationResult) :
    (runImplementationPhase ex st ctx).countsTrace = st.countsTrace := rfl

@[simp] theorem runImplementationPhase_taskDescription (ex : Executors) (st : FlowState)
    (ctx : Option EvaluationResult) :
    (runImplementationPhase ex st ctx).taskDescription = st.taskDescription := rfl

@[simp] theorem runImplementationPhase_finalPlan (ex : Executors) (st : FlowState)
    (ctx : Option EvaluationResult) :
    (runImplementationPhase ex st ctx).finalPlan = st.finalPlan := rfl

@[simp] theorem runImplementationPhase_history (ex : Executors) (st : FlowState)
    (ctx : Option EvaluationResult) :
    (runImplementationPhase ex st ctx).history =
      recordAttempt st.history PhaseTag.implementation
        (ex.implementationExec st.taskDescription st.planningNow ctx).isSome := rfl

@[simp] theorem runEvaluationPhase_iterationCounts (ex : Executors) (st : FlowState) :
    (runEvaluationPhase ex st).iterationCounts = st.iterationCounts := rfl

@[simp] theorem runEvaluationPhase_totalReentries (ex : Executors) (st : FlowState) :
    (runEvaluationPhase ex st).totalReentries = st.totalReentries := rfl

@[simp] theorem runEvaluationPhase_countsTrace (ex : Executors) (st : FlowState) :
    (runEvaluationPhase ex st).countsTrace = st.countsTrace := rfl

@[simp] theorem runEvaluationPhase_taskDescription (ex : Executors) (st : FlowState) :
    (runEvaluationPhase ex st).taskDescription = st.taskDescription := rfl

@[simp] theorem runEvaluationPhase_finalPlan (ex : Executors) (st : FlowState) :
    (runEvaluationPhase ex st).finalPlan = st.finalPlan := rfl

@[simp] theorem runEvaluationPhase_history (ex : Executors) (st : FlowState) :
    (runEvaluationPhase ex st).history =
      recordAttempt st.history PhaseTag.evaluation
        (ex.evaluationExec st.implementationNow).isSome := rfl

@[simp] theorem finishWith_iterationCounts (st : FlowState) (cand : ImplementationResult) :
    (finishWith st cand).iterationCounts = st.iterationCounts := rfl

@[simp] theorem finishWith_totalReentries (st : FlowState) (cand : ImplementationResult) :
    (finishWith st cand).totalReentries = st.totalReentries := rfl

@[simp] theorem finishWith_countsTrace (st : FlowState) (cand : ImplementationResult) :
    (finishWith st cand).countsTrace = st.countsTrace := rfl

@[simp] theorem finishWith_history (st : FlowState) (cand : ImplementationResult) :
    (finishWith st cand).history = st.history := rfl

@[simp] theorem finishWith_finalPlan (st : FlowState) (cand : ImplementationResult) :
    (finishWith st cand).finalPlan =
      some (finalizePlan cand st.iterations st.taskDescription) := rfl

theorem applyRefinement_iterationCounts (ex : Executors) (st : FlowState) (t : PhaseTag) :
    (applyRefinement ex st t).iterationCounts = st.iterationCounts.incr t := by
  cases t <;> rfl

theorem applyRefinement_totalReentries (ex : Executors) (st : FlowState) (t : PhaseTag) :
    (applyRefinement ex st t).totalReentries = st.totalReentries + 1 := by
  cases t <;> rfl

theorem applyRefinement_countsTrace (ex : Executors) (st : FlowState) (t : PhaseTag) :
    (applyRefinement ex st t).countsTrace =
      st.countsTrace ++ [st.iterationCounts.incr t] := by
  cases t <;> rfl

theorem applyRefinement_taskDescription (ex : Executors) (st : FlowState) (t : PhaseTag) :
    (applyRefinement ex st t).taskDescription = st.taskDescription := by
  cases t <;> rfl

/-- One unfolding of the refinement loop. -/
theorem loop_step (ex : Executors) (fuel : Nat) (st : FlowState) :
    loop ex (fuel + 1) st =
      match refinementDecision st.evaluationNow st.iterationCounts st.totalReentries with
      | Decision.finalizeNow => finishWith st st.implementationNow
      | Decision.forcedFinalize => finishWith st (bestCandidate st)
      | Decision.refine target => loop ex fuel (applyRefinement ex st target) := rfl

/-- A refinement verdict is only reached below both iteration caps, and
only for the controller-chosen phase. -/
theorem refine_guard (ev : EvaluationResult) (counts : IterationCounts) (total : Nat)
    (p : PhaseTag) (h : refinementDecision ev counts total = Decision.refine p) :
    counts.get p < 3 ∧ total < 6 ∧ p = choosePhase ev := by
  unfold refinementDecision at h
  by_cases h7 : 7 ≤ ev.score
  · rw [if_pos h7] at h
    exact absurd h (by simp)
  · rw [if_neg h7] at h
    by_cases hcap : 3 ≤ counts.get (choosePhase ev) ∨ 6 ≤ total
    · rw [if_pos hcap] at h
      exact absurd h (by simp)
    · rw [if_neg hcap] at h
      push_neg at hcap
      injection h with hp
      subst hp
      exact ⟨hcap.1, hcap.2, rfl⟩

/-- `bestIteration` is `none` exactly on the empty iteration list. -/
theorem bestIteration_eq_none_iff (l : List (ImplementationResult × ℚ)) :
    bestIteration l = none ↔ l = [] := by
  cases l with
  | nil => simp [bestIteration]
  | cons x xs =>
    constructor
    · intro h
      cases hxs : bestIteration xs with
      | none =>
        simp only [bestIteration, hxs] at h
        exact absurd h (by simp)
      | some y =>
        simp only [bestIteration, hxs] at h
        by_cases hlt : x.2 < y.2
        · rw [if_pos hlt] at h; exact absurd h (by simp)
        · rw [if_neg hlt] at h; exact absurd h (by simp)
    · intro h; exact absurd h (by simp)

/-- The selected best iteration is a member of the list, carries the
maximal score, and is the most recent among maximal scores: everything
before it in the most-recent-first list scores strictly lower. -/
theorem bestIteration_spec (l : List (ImplementationResult × ℚ)) :
    ∀ b, bestIteration l = some b →
      b ∈ l ∧ (∀ x ∈ l, x.2 ≤ b.2) ∧
      ∃ pre post, l = pre ++ b :: post ∧ ∀ x ∈ pre, x.2 < b.2 := by
  induction l with
  | nil => intro b hb; exact absurd hb (by simp [bestIteration])
  | cons x xs ih =>
    intro b hb
    cases hxs : bestIteration xs with
    | none =>
      simp only [bestIteration, hxs] at hb
      injection hb with hxb
      subst hxb
      have hnil : xs = [] := (bestIteration_eq_none_iff xs).mp hxs
      subst hnil
      refine ⟨by simp, ?_, [], [], by simp, by simp⟩
      intro z hz
      rw [List.mem_singleton] at hz
      subst hz
      exact le_refl _
    | some y =>
      simp only [bestIteration, hxs] at hb
      by_cases hlt : x.2 < y.2
      · rw [if_pos hlt] at hb
        injection hb with hyb
        subst hyb
        obtain ⟨hmem, hmax, pre, post, hsplit, hpre⟩ := ih y hxs
        refine ⟨List.mem_cons_of_mem x hmem, ?_, x :: pre, post, by simp [hsplit], ?_⟩
        · intro z hz
          rcases List.mem_cons.mp hz with rfl | hz2
          · exact le_of_lt hlt
          · exact hmax z hz2
        · intro z hz
          rcases List.mem_cons.mp hz with rfl | hz2
          · exact hlt
          · exact hpre z hz2
      · rw [if_neg hlt] at hb
        injection hb with hxb
        subst hxb
        obtain ⟨hymem, hymax, hrest⟩ := ih y hxs
        push_neg at hlt
        refine ⟨by simp, ?_, [], xs, by simp, by simp⟩
        intro z hz
        rcases List.mem_cons.mp hz with rfl | hz2
        · exact le_refl _
        · exact le_trans (hymax z hz2) hlt

/-! ## Claim theorems for the flow orchestrator -/

/-- C5: when the evaluation score is below the termination threshold, the
recommendation counts tagged planning and implementation are equal, and
neither iteration cap is reached, the Refinement Controller selects the
implementation phase (tie-break) and the re-entry increments
iterationCounts at implementation by exactly 1. -/
theorem tie_prefers_implementation :
    ∀ (ev : EvaluationResult) (counts : IterationCounts) (total : Nat)
      (ex : Executors) (st : FlowState),
      ¬ 7 ≤ ev.score →
      countTagged ev.recommendations PhaseTag.planning =
        countTagged ev.recommendations PhaseTag.implementation →
      counts.get PhaseTag.implementation < 3 →
      total < 6 →
      refinementDecision ev counts total = Decision.refine PhaseTag.implementation ∧
      (counts.incr PhaseTag.implementation).get PhaseTag.implementation =
        counts.get PhaseTag.implementation + 1 ∧
      (applyRefinement ex st PhaseTag.implementation).iterationCounts.get
          PhaseTag.implementation =
        st.iterationCounts.get PhaseTag.implementation + 1 := by
  intro ev counts total ex st h7 htie hcap htotal
  have hchoose : choosePhase ev = PhaseTag.implementation := by
    unfold choosePhase
    rw [if_pos (le_of_eq htie)]
  refine ⟨?_, rfl, ?_⟩
  · unfold refinementDecision
    rw [if_neg h7, hchoose, if_neg ?_]
    push_neg
    exact ⟨by omega, by omega⟩
  · rw [applyRefinement_iterationCounts, IterationCounts.get_incr]
    simp

/-- A concrete configuration for witness scenarios. -/
def cfg0 : Config := { modelName := "gpt-4o", temperature := 1 }

/-- The tied evaluation of the claim's scenario: score 5.0, one weakness
and one recommendation tagged implementation, one of each tagged
planning. -/
def evTie : EvaluationResult :=
  { strengths := [],
    weaknesses := [{ text := "task design too shallow", target := PhaseTag.implementation },
                   { text := "plan lacks a verification step", target := PhaseTag.planning }],
    recommendations := [{ text := "add a review task", target := PhaseTag.implementation },
                        { text := "revise the plan ordering", target := PhaseTag.planning }],
    score := 5 }

/-- Witness for C5: on the tied scenario the controller picks the
implementation phase and the counter becomes 1. -/
theorem tie_prefers_implementation_witness :
    refinementDecision evTie IterationCounts.zero 0 =
      Decision.refine PhaseTag.implementation ∧
    (IterationCounts.zero.incr PhaseTag.implementation).get PhaseTag.implementation = 1 := by
  have h := tie_prefers_implementation evTie IterationCounts.zero 0 failingExecutors
    (initialState "Build a two-step document summarizer" cfg0)
    (by decide) (by decide) (by decide) (by decide)
  exact ⟨h.1, h.2.1⟩

/-- C6: whenever the Refinement Controller reaches a cap (per-phase or
global) and forces finalization, the loop terminates immediately and
publishes the Finalizer's output for `bestImplementationSoFar` — the
member of the completed iterations with the highest evaluation score,
most recent on ties — not necessarily the latest implementation. -/
theorem forced_finalization_uses_best :
    ∀ (ex : Executors) (fuel : Nat) (st : FlowState),
      refinementDecision st.evaluationNow st.iterationCounts st.totalReentries =
        Decision.forcedFinalize →
      (loop ex (fuel + 1) st).finalPlan =
        some (finalizePlan (bestCandidate st) st.iterations st.taskDescription) ∧
      ∀ b, bestIteration st.iterations = some b →
        bestCandidate st = b.1 ∧ b ∈ st.iterations ∧
        (∀ x ∈ st.iterations, x.2 ≤ b.2) ∧
        ∃ pre post, st.iterations = pre ++ b :: post ∧ ∀ x ∈ pre, x.2 < b.2 := by
  intro ex fuel st hdec
  constructor
  · rw [loop_step, hdec]
    rfl
  · intro b hb
    have hspec := bestIteration_spec st.iterations b hb
    refine ⟨?_, hspec.1, hspec.2.1, hspec.2.2⟩
    unfold bestCandidate
    rw [hb]

/-- The evaluation present when the cap fires in the C6 scenario: score 5,
feedback tagged toward planning. -/
def evForced : EvaluationResult :=
  { strengths := [],
    weaknesses := [{ text := "plan still too coarse", target := PhaseTag.planning }],
    recommendations := [{ text := "rework the plan", target := PhaseTag.planning }],
    score := 5 }

/-- The state of the C6 scenario right after the fourth Evaluation: three
prior refinements all targeted planning (scores 4, 5, 6 most recent
last), the per-phase cap for planning is reached, and the latest
iteration scored 5. -/
def stForced : FlowState :=
  { taskDescription := "Build a two-step document summarizer",
    config := cfg0,
    analysis := some analysisFallback,
    planning := some planningFallback,
    implementation := some (implementationFallback "fourth attempt"),
    evaluation := some evForced,
    iterationCounts := { analysisCount := 0, planningCount := 3,
                         implementationCount := 0, evaluationCount := 0 },
    history := [],
    finalPlan := none,
    totalReentries := 3,
    iterations := [(implementationFallback "fourth attempt", 5),
                   (implementationFallback "third attempt", 6),
                   (implementationFallback "second attempt", 5),
                   (implementationFallback "first attempt", 4)],
    countsTrace := [{ analysisCount := 0, planningCount := 1,
                      implementationCount := 0, evaluationCount := 0 },
                    { analysisCount := 0, planningCount := 2,
                      implementationCount := 0, evaluationCount := 0 },
                    { analysisCount := 0, planningCount := 3,
                      implementationCount := 0, evaluationCount := 0 }] }

/-- Witness for C6: on the scenario with scores 4, 5, 6 and a final 5, the
forced finalization publishes the score-6 implementation, not the
latest. -/
theorem forced_finalization_uses_best_witness :
    (loop failingExecutors 1 stForced).finalPlan =
      some (toCrewPlan (implementationFallback "third attempt")) ∧
    (loop failingExecutors 1 stForced).finalPlan ≠
      some (toCrewPlan (implementationFallback "fourth attempt")) := by
  have h := forced_finalization_uses_best failingExecutors 0 stForced (by decide)
  constructor
  · rw [h.1]
    decide
  · rw [h.1]
    decide

/-- C3: if the first-pass evaluation scores at least 7, the flow advances
straight to the Finalizer: the published plan is the Finalizer's mapping
of the first ImplementationResult, no refinement re-entry occurs, every
iteration counter stays 0, and no history entry is tagged refinement. -/
theorem high_first_score_finalizes_directly :
    ∀ (ex : Executors) (task : String) (cfg : Config),
      7 ≤ (firstEvaluation ex task cfg).score →
      (run ex task cfg).finalPlan =
        some (finalizePlan (firstImplementation ex task cfg)
          (firstPassState ex task cfg).iterations task) ∧
      (run ex task cfg).iterationCounts = IterationCounts.zero ∧
      (run ex task cfg).totalReentries = 0 ∧
      (run ex task cfg).history.all (fun e => !e.refinementTag) = true := by
  intro ex task cfg hscore
  have hdec : refinementDecision (firstPassState ex task cfg).evaluationNow
      (firstPassState ex task cfg).iterationCounts
      (firstPassState ex task cfg).totalReentries = Decision.finalizeNow := by
    unfold refinementDecision
    rw [if_pos (show 7 ≤ (firstPassState ex task cfg).evaluationNow.score from hscore)]
  have hstep := loop_step ex 6 (firstPassState ex task cfg)
  rw [hdec] at hstep
  have hrun : run ex task cfg =
      finishWith (firstPassState ex task cfg)
        (firstPassState ex task cfg).implementationNow := hstep
  rw [hrun]
  exact ⟨rfl, rfl, rfl, rfl⟩

/-- The first-pass implementation of the high-scoring witness scenario. -/
def goodImpl : ImplementationResult :=
  { agents := [{ name := "researcher", role := "Research", goal := "gather",
                 backstory := "", capabilities := ["search"] },
               { name := "writer", role := "Write", goal := "summarize",
                 backstory := "", capabilities := [] }],
    tasks := [{ name := "collect", description := "collect sources",
                expectedOutput := "notes", agent := "researcher", deps := [] },
              { name := "draft", description := "write the summary",
                expectedOutput := "summary", agent := "writer", deps := ["collect"] }],
    workflow := { processType := ProcessType.sequential, taskOrder := ["collect", "draft"] },
    tools := ["search"] }

/-- Executors that succeed on every phase and score the result 9. -/
def goodExecutors : Executors :=
  { analysisExec := fun _ _ => some
      { constraints := [], complexity := 3, domainKnowledge := [],
        recommendedProcessType := ProcessType.sequential },
    planningExec := fun _ _ _ => some
      { selectedAlgorithm := Algorithm.bestOfN, candidatePlans := ["p"],
        verificationScore := 8 },
    implementationExec := fun _ _ _ => some goodImpl,
    evaluationExec := fun _ => some
      { strengths := ["complete"], weaknesses := [], recommendations := [], score := 9 } }

/-- Witness for C3: with executors whose first evaluation scores 9, the
run publishes the Finalizer's mapping of the first implementation and the
counters all stay 0. -/
theorem high_first_score_finalizes_directly_witness :
    (run goodExecutors "Summarize the docs" cfg0).finalPlan =
      some (finalizePlan (firstImplementation goodExecutors "Summarize the docs" cfg0)
        (firstPassState goodExecutors "Summarize the docs" cfg0).iterations
        "Summarize the docs") ∧
    (run goodExecutors "Summarize the docs" cfg0).iterationCounts = IterationCounts.zero ∧
    (run goodExecutors "Summarize the docs" cfg0).totalReentries = 0 := by
  have h := high_first_score_finalizes_directly goodExecutors "Summarize the docs" cfg0
    (by decide)
  exact ⟨h.1, h.2.1, h.2.2.1⟩

/-- The Finalizer's checks hold on a plan copied from a validated
implementation. -/
theorem planValid_toCrewPlan (impl : ImplementationResult) :
    planValid (toCrewPlan impl) = validImpl impl := rfl

/-- The locally constructed Implementation fallback always validates. -/
theorem implementationFallback_valid (task : String) :
    validImpl (implementationFallback task) = true := rfl

/-- Whatever candidate the Finalizer is given, the plan it publishes
passes its own validation. -/
theorem finalizePlan_valid (cand : ImplementationResult)
    (iters : List (ImplementationResult × ℚ)) (task : String) :
    planValid (finalizePlan cand iters task) = true := by
  unfold finalizePlan
  by_cases hv : validImpl cand
  · rw [if_pos hv, planValid_toCrewPlan]
    exact hv
  · rw [if_neg hv]
    cases hbest : bestIteration (iters.filter fun ir => validImpl ir.1) with
    | none => exact implementationFallback_valid task
    | some b =>
      have hmem := (bestIteration_spec _ b hbest).1
      have hvb := (List.mem_filter.mp hmem).2
      rw [planValid_toCrewPlan]
      exact hvb

/-- Every fuelled loop terminates with a published plan that passed the
Finalizer's validation. -/
theorem loop_publishes_valid_plan (ex : Executors) :
    ∀ (fuel : Nat) (st : FlowState), ∃ p,
      (loop ex fuel st).finalPlan = some p ∧ planValid p = true := by
  intro fuel
  induction fuel with
  | zero =>
    intro st
    exact ⟨_, rfl, finalizePlan_valid _ _ _⟩
  | succ n ih =>
    intro st
    rcases hdec : refinementDecision st.evaluationNow st.iterationCounts
        st.totalReentries with _ | _ | target
    · rw [loop_step, hdec]
      exact ⟨_, rfl, finalizePlan_valid _ _ _⟩
    · rw [loop_step, hdec]
      exact ⟨_, rfl, finalizePlan_valid _ _ _⟩
    · rw [loop_step, hdec]
      exact ih (applyRefinement ex st target)

set_option maxHeartbeats 2000000 in
/-- With the all-failing executors, the run publishes precisely the plan
built from the local fallbacks (computed by unfolding the whole run). -/
theorem run_failing_publishes_fallback (task : String) (cfg : Config) :
    (run failingExecutors task cfg).finalPlan =
      some (toCrewPlan (implementationFallback task)) := rfl

/-- C1: `run` is a total function into states carrying a published
CrewPlan — no failure escapes — and when every executor fails on every
attempt the published plan is exactly the one built from the locally
constructed fallback results. -/
theorem run_never_throws :
    ∀ (ex : Executors) (task : String) (cfg : Config),
      (∃ p, (run ex task cfg).finalPlan = some p) ∧
      (run failingExecutors task cfg).finalPlan =
        some (toCrewPlan (implementationFallback task)) := by
  intro ex task cfg
  constructor
  · obtain ⟨p, hp, _⟩ := loop_publishes_valid_plan ex 7 (firstPassState ex task cfg)
    exact ⟨p, hp⟩
  · exact run_failing_publishes_fallback task cfg

/-- C4: every run publishes a plan whose dependency references resolve,
whose dependency graph passes the acyclicity check, and whose agent
references resolve; and a candidate failing the Finalizer's validation is
rejected: the published plan still validates and equals the mapping of
the best prior valid iteration when one exists. -/
theorem finalizer_never_publishes_invalid :
    ∀ (ex : Executors) (task : String) (cfg : Config),
      (∃ p, (run ex task cfg).finalPlan = some p ∧
        depsResolve p.tasks = true ∧ acyclicTasks p.tasks = true ∧
        agentsResolve p.agents p.tasks = true) ∧
      (∀ (cand : ImplementationResult) (iters : List (ImplementationResult × ℚ))
          (td : String),
        validImpl cand = false →
        planValid (finalizePlan cand iters td) = true ∧
        ∀ b, bestIteration (iters.filter fun ir => validImpl ir.1) = some b →
          finalizePlan cand iters td = toCrewPlan b.1) := by
  intro ex task cfg
  constructor
  · obtain ⟨p, hp, hv⟩ := loop_publishes_valid_plan ex 7 (firstPassState ex task cfg)
    rw [planValid, Bool.and_eq_true, Bool.and_eq_true] at hv
    exact ⟨p, hp, hv.1.1, hv.1.2, hv.2⟩
  · intro cand iters td hinv
    refine ⟨finalizePlan_valid cand iters td, ?_⟩
    intro b hbest
    unfold finalizePlan
    rw [if_neg (by rw [hinv]; exact Bool.false_ne_true), hbest]

/-- A cyclic implementation: two tasks depending on each other. -/
def cyclicImpl : ImplementationResult :=
  { agents := [{ name := "solo", role := "worker", goal := "do",
                 backstory := "", capabilities := [] }],
    tasks := [{ name := "t1", description := "first", expectedOutput := "o1",
                agent := "solo", deps := ["t2"] },
              { name := "t2", description := "second", expectedOutput := "o2",
                agent := "solo", deps := ["t1"] }],
    workflow := { processType := ProcessType.sequential, taskOrder := ["t1", "t2"] },
    tools := [] }

/-- Witness for C4: the cyclic implementation is rejected and the
Finalizer publishes the best prior valid iteration instead. -/
theorem finalizer_never_publishes_invalid_witness :
    validImpl cyclicImpl = false ∧
    planValid (finalizePlan cyclicImpl [(implementationFallback "w", 3)] "w") = true ∧
    finalizePlan cyclicImpl [(implementationFallback "w", 3)] "w" =
      toCrewPlan (implementationFallback "w") := by
  have h := (finalizer_never_publishes_invalid failingExecutors "w" cfg0).2 cyclicImpl
    [(implementationFallback "w", 3)] "w" (by decide)
  exact ⟨by decide, h.1, h.2 (implementationFallback "w", 3) (by decide)⟩

/-- The refinement loop keeps every iteration counter at or below 3, the
total re-entries at or below 6, and every counter snapshot bounded, from
any state already satisfying these bounds. -/
theorem loop_preserves_caps (ex : Executors) :
    ∀ (fuel : Nat) (st : FlowState),
      (∀ p, st.iterationCounts.get p ≤ 3) →
      st.totalReentries ≤ 6 →
      (∀ cts ∈ st.countsTrace, ∀ p, cts.get p ≤ 3) →
      (∀ p, (loop ex fuel st).iterationCounts.get p ≤ 3) ∧
      (loop ex fuel st).totalReentries ≤ 6 ∧
      (∀ cts ∈ (loop ex fuel st).countsTrace, ∀ p, cts.get p ≤ 3) := by
  intro fuel
  induction fuel with
  | zero =>
    intro st h1 h2 h3
    exact ⟨h1, h2, h3⟩
  | succ n ih =>
    intro st h1 h2 h3
    rcases hdec : refinementDecision st.evaluationNow st.iterationCounts
        st.totalReentries with _ | _ | target
    · rw [loop_step, hdec]
      exact ⟨h1, h2, h3⟩
    · rw [loop_step, hdec]
      exact ⟨h1, h2, h3⟩
    · rw [loop_step, hdec]
      obtain ⟨hlt, hlt6, _⟩ := refine_guard _ _ _ _ hdec
      have hA : ∀ p, (applyRefinement ex st target).iterationCounts.get p ≤ 3 := by
        intro p
        rw [applyRefinement_iterationCounts, IterationCounts.get_incr]
        by_cases hp : p = target
        · rw [if_pos hp]
          subst hp
          omega
        · rw [if_neg hp]
          exact h1 p
      have hB : (applyRefinement ex st target).totalReentries ≤ 6 := by
        rw [applyRefinement_totalReentries]
        omega
      have hC : ∀ cts ∈ (applyRefinement ex st target).countsTrace, ∀ p, cts.get p ≤ 3 := by
        intro cts hmem
        rw [applyRefinement_countsTrace] at hmem
        rcases List.mem_append.mp hmem with hold | hnew
        · exact h3 cts hold
        · rw [List.mem_singleton] at hnew
          subst hnew
          intro p
          rw [IterationCounts.get_incr]
          by_cases hp : p = target
          · rw [if_pos hp]
            subst hp
            omega
          · rw [if_neg hp]
            exact h1 p
      exact ih (applyRefinement ex st target) hA hB hC

/-- C2: in every run, every recorded snapshot of the per-phase iteration
counters and the final counters stay at or below 3 for every phase, and
the total number of phase re-entries stays at or below 6. -/
theorem iteration_caps_respected :
    ∀ (ex : Executors) (task : String) (cfg : Config),
      (∀ cts ∈ (run ex task cfg).countsTrace, ∀ p, cts.get p ≤ 3) ∧
      (∀ p, (run ex task cfg).iterationCounts.get p ≤ 3) ∧
      (run ex task cfg).totalReentries ≤ 6 := by
  intro ex task cfg
  have h := loop_preserves_caps ex 7 (firstPassState ex task cfg)
    (by intro p; cases p <;> exact Nat.zero_le 3)
    (Nat.zero_le 6)
    (by intro cts hmem; exact absurd hmem (List.not_mem_nil cts))
  exact ⟨h.2.2, h.1, h.2.1⟩

/-- Witness for C2: the bounds evaluated on the all-failing run, including
one concrete snapshot from its counter trace. -/
theorem iteration_caps_respected_witness :
    (run failingExecutors "t" cfg0).iterationCounts.get PhaseTag.implementation ≤ 3 ∧
    (run failingExecutors "t" cfg0).totalReentries ≤ 6 ∧
    IterationCounts.get (⟨0, 0, 3, 0⟩ : IterationCounts) PhaseTag.implementation ≤ 3 := by
  have h := iteration_caps_respected failingExecutors "t" cfg0
  refine ⟨h.2.1 PhaseTag.implementation, h.2.2, ?_⟩
  exact h.1 (⟨0, 0, 3, 0⟩ : IterationCounts) (by decide) PhaseTag.implementation

/-- Recording an attempt only appends. -/
theorem recordAttempt_extends (h : List HistoryEntry) (p : PhaseTag) (ok : Bool) :
    extendsHist h (recordAttempt h p ok) := ⟨_, rfl⟩

/-- A refinement re-entry only appends to the history. -/
theorem applyRefinement_extends (ex : Executors) (st : FlowState) (t : PhaseTag) :
    extendsHist st.history (applyRefinement ex st t).history := by
  cases t with
  | analysis =>
    exact extendsHist_trans (extendsHist_trans ⟨_, rfl⟩ (recordAttempt_extends _ _ _))
      (recordAttempt_extends _ _ _)
  | planning =>
    exact extendsHist_trans (extendsHist_trans (extendsHist_trans ⟨_, rfl⟩
      (recordAttempt_extends _ _ _)) (recordAttempt_extends _ _ _))
      (recordAttempt_extends _ _ _)
  | implementation =>
    exact extendsHist_trans (extendsHist_trans ⟨_, rfl⟩ (recordAttempt_extends _ _ _))
      (recordAttempt_extends _ _ _)
  | evaluation =>
    exact extendsHist_trans (extendsHist_trans ⟨_, rfl⟩ (recordAttempt_extends _ _ _))
      (recordAttempt_extends _ _ _)

/-- The refinement loop never mutates or removes history entries: from any
state it only appends. -/
theorem loop_extends_history (ex : Executors) :
    ∀ (fuel : Nat) (st : FlowState),
      extendsHist st.history (loop ex fuel st).history := by
  intro fuel
  induction fuel with
  | zero =>
    intro st
    exact extendsHist_refl _
  | succ n ih =>
    intro st
    rcases hdec : refinementDecision st.evaluationNow st.iterationCounts
        st.totalReentries with _ | _ | target
    · rw [loop_step, hdec]
      exact extendsHist_refl _
    · rw [loop_step, hdec]
      exact extendsHist_refl _
    · rw [loop_step, hdec]
      exact extendsHist_trans (applyRefinement_extends ex st target)
        (ih (applyRefinement ex st target))

/-- `attemptEntries` distributes over appends. -/
theorem attemptEntries_append (h1 h2 : List HistoryEntry) (p : PhaseTag) :
    attemptEntries (h1 ++ h2) p = attemptEntries h1 p ++ attemptEntries h2 p :=
  List.filter_append _ _

/-- Recording an attempt of a phase appends exactly one attempt entry for
it, numbered one past the previous count. -/
theorem attemptEntries_recordAttempt_self (h : List HistoryEntry) (p : PhaseTag)
    (ok : Bool) :
    attemptEntries (recordAttempt h p ok) p =
      attemptEntries h p ++
        [{ phase := p, attempt := attemptNumberFor h p, success := ok,
           refinementTag := false }] := by
  unfold recordAttempt
  rw [attemptEntries_append]
  congr 1
  unfold attemptEntries
  simp

/-- Recording an attempt of one phase leaves other phases' attempt entries
unchanged. -/
theorem attemptEntries_recordAttempt_other (h : List HistoryEntry) (p q : PhaseTag)
    (ok : Bool) (hne : q ≠ p) :
    attemptEntries (recordAttempt h p ok) q = attemptEntries h q := by
  unfold recordAttempt
  rw [attemptEntries_append]
  have hq : attemptEntries
      [{ phase := p, attempt := attemptNumberFor h p, success := ok,
         refinementTag := false }] q = [] := by
    unfold attemptEntries
    simp
    intro hpq
    exact absurd (Eq.symm hpq) hne
  rw [hq, List.append_nil]

/-- Refinement-tagged entries are invisible to the per-phase attempt
numbering. -/
theorem attemptEntries_append_refinement (hist base : List HistoryEntry)
    (t q : PhaseTag) :
    attemptEntries (hist ++ [refinementEntry base t]) q = attemptEntries hist q := by
  rw [attemptEntries_append]
  have hz : attemptEntries [refinementEntry base t] q = [] := by
    unfold attemptEntries refinementEntry
    simp
  rw [hz, List.append_nil]

/-- A history is well numbered when, for every phase, its attempt entries
carry the attempt numbers 1, 2, …, n in chronological order. -/
def wellNumbered (h : List HistoryEntry) : Prop :=
  ∀ p, (attemptEntries h p).map HistoryEntry.attempt =
    List.range' 1 (attemptEntries h p).length

theorem wellNumbered_nil : wellNumbered [] := by
  intro p
  rfl

/-- Recording an attempt preserves well numbering: the new entry receives
the next attempt number of its phase. -/
theorem wellNumbered_recordAttempt (h : List HistoryEntry) (p : PhaseTag) (ok : Bool)
    (hw : wellNumbered h) : wellNumbered (recordAttempt h p ok) := by
  intro q
  by_cases hq : q = p
  · subst hq
    rw [attemptEntries_recordAttempt_self, List.map_append, hw q]
    simp only [List.map_cons, List.map_nil, List.length_append, List.length_cons,
      List.length_nil, Nat.zero_add]
    rw [List.range'_concat]
    have h1 : attemptNumberFor h q = (attemptEntries h q).length + 1 := rfl
    have h2 : 1 + 1 * (attemptEntries h q).length = (attemptEntries h q).length + 1 := by
      omega
    rw [h1, h2]
  · rw [attemptEntries_recordAttempt_other h p q ok hq]
    exact hw q

theorem wellNumbered_append_refinement (hist base : List HistoryEntry) (t : PhaseTag)
    (hw : wellNumbered hist) : wellNumbered (hist ++ [refinementEntry base t]) := by
  intro q
  rw [attemptEntries_append_refinement]
  exact hw q

/-- A refinement re-entry preserves well numbering. -/
theorem wellNumbered_applyRefinement (ex : Executors) (st : FlowState) (t : PhaseTag)
    (hw : wellNumbered st.history) :
    wellNumbered (applyRefinement ex st t).history := by
  have hbase : wellNumbered (st.history ++ [refinementEntry st.history t]) :=
    wellNumbered_append_refinement st.history st.history t hw
  cases t with
  | analysis =>
    exact wellNumbered_recordAttempt _ _ _ (wellNumbered_recordAttempt _ _ _ hbase)
  | planning =>
    exact wellNumbered_recordAttempt _ _ _
      (wellNumbered_recordAttempt _ _ _ (wellNumbered_recordAttempt _ _ _ hbase))
  | implementation =>
    exact wellNumbered_recordAttempt _ _ _ (wellNumbered_recordAttempt _ _ _ hbase)
  | evaluation =>
    exact wellNumbered_recordAttempt _ _ _ (wellNumbered_recordAttempt _ _ _ hbase)

/-- The refinement loop preserves well numbering. -/
theorem loop_wellNumbered (ex : Executors) :
    ∀ (fuel : Nat) (st : FlowState), wellNumbered st.history →
      wellNumbered (loop ex fuel st).history := by
  intro fuel
  induction fuel with
  | zero =>
    intro st hw
    exact hw
  | succ n ih =>
    intro st hw
    rcases hdec : refinementDecision st.evaluationNow st.iterationCounts
        st.totalReentries with _ | _ | target
    · rw [loop_step, hdec]
      exact hw
    · rw [loop_step, hdec]
      exact hw
    · rw [loop_step, hdec]
      exact ih (applyRefinement ex st target) (wellNumbered_applyRefinement ex st target hw)

/-- The first pass records one well-numbered attempt per phase. -/
theorem firstPassState_wellNumbered (ex : Executors) (task : String) (cfg : Config) :
    wellNumbered (firstPassState ex task cfg).history :=
  wellNumbered_recordAttempt _ _ _ (wellNumbered_recordAttempt _ _ _
    (wellNumbered_recordAttempt _ _ _ (wellNumbered_recordAttempt _ _ _ wellNumbered_nil)))

/-- C7: the history log is append-only — the loop only ever appends to it,
each phase invocation appends exactly one non-refinement entry for its
phase — and in the final history of every run each phase's attempt
entries carry the attempt numbers 1, 2, …, n in chronological order, so
no entry is ever mutated or removed. -/
theorem history_append_only_per_attempt :
    ∀ (ex : Executors) (task : String) (cfg : Config),
      (∀ (fuel : Nat) (st : FlowState),
        extendsHist st.history (loop ex fuel st).history) ∧
      (∀ st : FlowState, ∃ e, e.phase = PhaseTag.analysis ∧ e.refinementTag = false ∧
        (runAnalysisPhase ex st).history = st.history ++ [e]) ∧
      (∀ (st : FlowState) (ctx : Option EvaluationResult), ∃ e,
        e.phase = PhaseTag.planning ∧ e.refinementTag = false ∧
        (runPlanningPhase ex st ctx).history = st.history ++ [e]) ∧
      (∀ (st : FlowState) (ctx : Option EvaluationResult), ∃ e,
        e.phase = PhaseTag.implementation ∧ e.refinementTag = false ∧
        (runImplementationPhase ex st ctx).history = st.history ++ [e]) ∧
      (∀ st : FlowState, ∃ e, e.phase = PhaseTag.evaluation ∧ e.refinementTag = false ∧
        (runEvaluationPhase ex st).history = st.history ++ [e]) ∧
      wellNumbered (run ex task cfg).history := by
  intro ex task cfg
  refine ⟨loop_extends_history ex, ?_, ?_, ?_, ?_, ?_⟩
  · intro st
    exact ⟨_, rfl, rfl, rfl⟩
  · intro st ctx
    exact ⟨_, rfl, rfl, rfl⟩
  · intro st ctx
    exact ⟨_, rfl, rfl, rfl⟩
  · intro st
    exact ⟨_, rfl, rfl, rfl⟩
  · exact loop_wellNumbered ex 7 (firstPassState ex task cfg)
      (firstPassState_wellNumbered ex task cfg)

end MultiCrewFlow
